import Mathlib

/-!
Shallow embedding of the subordinate controller of the rust-debugger
repository (src/debugger/subordinate.rs and src/sys/mod.rs).

Machine words are modelled as natural numbers; u64 arithmetic that can wrap
is made explicit with a modulus by 2 ^ 64.  The child process and the kernel
are modelled as an explicit state, the World below: the child's memory is a
function from byte address to the machine word a ptrace peek at that address
returns, the child's register file is a record, and fallibility of the
ptrace calls is modelled by readable/writable oracles and the
getregsOk/setregsOk flags.  The World also carries a ghost, append-only
history of every poke the controller performed (address, the word that was
at the address just before the write, the word written); no operation reads
it, it only records observations for the historical breakpoint invariant.

Stateful Rust methods taking &mut self and returning Result are embedded as
functions returning a triple: the Except result together with the subordinate
state and the world as they are when the method returns, so that a method
that fails after mutating part of the state is represented faithfully.

The external wait() call is modelled by passing the observed WaitStatus to
fetch_state as an argument, and the instructions retired by the child
between a singlestep/cont request and the following wait are modelled as an
arbitrary environment change of the child's memory and registers (the run
constructor of OpStep below).
-/

namespace RustDebugger

/-- Modelled from the spec: the register snapshot record produced by the
debug-info crate (src/debugger is only partially present in the sources);
the spec requires at least ip, sp, bp and the ABI-visible set.  The core
accesses only the rip and rsp fields, with x86-64 names as in the source. -/
structure Registers where
  rip : Nat
  rsp : Nat
  rbp : Nat
  rax : Nat
  rbx : Nat
  rcx : Nat
  rdx : Nat
  rdi : Nat
  rsi : Nat
deriving DecidableEq

/-- Registers::default() - all fields zero. -/
def Registers.default : Registers :=
  { rip := 0, rsp := 0, rbp := 0, rax := 0, rbx := 0, rcx := 0, rdx := 0,
    rdi := 0, rsi := 0 }

/-- Modelled from the spec: a named code region from the debug information. -/
structure Symbol where
  name : String
  low_pc : Nat
  high_pc : Nat
deriving DecidableEq

/-- Modelled from the spec: mapping from symbol name to Symbol, constructed
once at spawn from the executable file. -/
structure DebugInfo where
  symbols : List (String × Symbol)
deriving DecidableEq

/-- The typed wait status of src/sys/mod.rs (the misspelled Unknwon
constructor is the source's own name). -/
inductive WaitStatus where
  | Stopped (pid : Int) (signo : Int)
  | Continued (pid : Int)
  | Exited (pid : Int) (code : Int)
  | Signaled (pid : Int) (termsig : Int)
  | Unknwon (pid : Int) (raw : Int)
deriving DecidableEq

/-- True exactly on the Stopped constructor. -/
def WaitStatus.isStopped : WaitStatus → Bool
  | .Stopped _ _ => true
  | _ => false

/-- The error type crossing the core boundary: an OS errno, a domain
message, or a propagated I/O or debug-info error (modelled from the spec,
the error crate is not among the sources). -/
inductive Err where
  | errno (code : Int)
  | domainErr (msg : String)
  | ioError (msg : String)
deriving DecidableEq

/-- Ghost record of one poke performed by the controller: the address, the
word that was at the address just before the write, and the word written. -/
structure PokeEv where
  addr : Nat
  pre : Nat
  data : Nat
deriving DecidableEq

/-- The child process and kernel state visible through ptrace, together
with the fault model for the ptrace calls and the ghost poke history. -/
structure World where
  mem : Nat → Nat
  readable : Nat → Bool
  writable : Nat → Bool
  regs : Registers
  getregsOk : Bool
  setregsOk : Bool
  faultErrno : Int
  history : List PokeEv

/-- Pointwise update of the memory function. -/
def memUpd (m : Nat → Nat) (k v : Nat) : Nat → Nat :=
  fun a => if a = k then v else m a

/-- HashMap::insert on the breakpoint map, modelled as a function map. -/
def mapInsert (m : Nat → Option Nat) (k v : Nat) : Nat → Option Nat :=
  fun a => if a = k then some v else m a

/-- HashMap::remove on the breakpoint map, modelled as a function map. -/
def mapErase (m : Nat → Option Nat) (k : Nat) : Nat → Option Nat :=
  fun a => if a = k then none else m a

/-- The Subordinate struct of src/debugger/subordinate.rs. -/
structure Subordinate where
  pid : Int
  registers : Registers
  stack : List Nat
  wait_status : WaitStatus
  breakpoints : Nat → Option Nat
  debug_info : DebugInfo

/-- ptrace::peek - reads the machine word at addr in the child; fails with
the current errno when the address is not readable. -/
def peek (w : World) (addr : Nat) : Except Err Nat :=
  if w.readable addr then .ok (w.mem addr) else .error (.errno w.faultErrno)

/-- ptrace::poke - writes one machine word at addr in the child, atomically
at word granularity; appends the ghost history event on success. -/
def poke (w : World) (addr data : Nat) : Except Err World :=
  if w.writable addr then
    .ok { w with
          mem := memUpd w.mem addr data,
          history := w.history ++ [{ addr := addr, pre := w.mem addr, data := data }] }
  else .error (.errno w.faultErrno)

/-- ptrace::getregs - snapshot of the child's register file. -/
def getregs (w : World) : Except Err Registers :=
  if w.getregsOk then .ok w.regs else .error (.errno w.faultErrno)

/-- ptrace::setregs - replaces the child's register file. -/
def setregs (w : World) (r : Registers) : Except Err World :=
  if w.setregsOk then .ok { w with regs := r } else .error (.errno w.faultErrno)

/-- The wrapping u64 computation rip - 1 performed by handle_breakpoint
(u64 subtraction wraps modulo 2 ^ 64 on underflow). -/
def u64_wrapping_sub_one (rip : Nat) : Nat :=
  (rip + (2 ^ 64 - 1)) % 2 ^ 64

/-- The word written by breakpoint: data & (usize::max_value() - 255) | 0xcc,
the original word with its lowest byte replaced by the trap opcode. -/
def trapWord (data : Nat) : Nat :=
  Nat.lor (Nat.land data (2 ^ 64 - 256)) 0xcc

/-- Subordinate::breakpoint (subordinate.rs lines 95-104): no-op when addr
is already installed; otherwise peek the original word, poke the trap word,
and only then insert the original word into the breakpoint map. -/
def breakpoint (s : Subordinate) (w : World) (addr : Nat) :
    Except Err Unit × Subordinate × World :=
  match s.breakpoints addr with
  | some _ => (.ok (), s, w)
  | none =>
    match peek w addr with
    | .error e => (.error e, s, w)
    | .ok data =>
      match poke w addr (trapWord data) with
      | .error e => (.error e, s, w)
      | .ok w' =>
        (.ok (), { s with breakpoints := mapInsert s.breakpoints addr data }, w')

/-- Subordinate::handle_breakpoint (subordinate.rs lines 132-142): computes
addr = rip - 1 in wrapping u64 arithmetic, and when addr is a key of the
breakpoint map removes the entry, rewinds the cached rip to addr, pokes the
saved word back and pushes the registers into the child via setregs. -/
def handle_breakpoint (s : Subordinate) (w : World) :
    Except Err Unit × Subordinate × World :=
  let addr := u64_wrapping_sub_one s.registers.rip
  match s.breakpoints addr with
  | none => (.ok (), s, w)
  | some data =>
    let s' : Subordinate :=
      { s with breakpoints := mapErase s.breakpoints addr,
               registers := { s.registers with rip := addr } }
    match poke w addr data with
    | .error e => (.error e, s', w)
    | .ok w' =>
      match setregs w' s'.registers with
      | .error e => (.error e, s', w')
      | .ok w'' => (.ok (), s', w'')

/-- The loop body of Subordinate::read_words over the remaining indices,
carrying the accumulated words. -/
def read_words_loop (w : World) (base : Nat) (acc : List Nat) :
    List Nat → Except Err (List Nat)
  | [] => .ok acc
  | i :: rest =>
    match peek w (base + 8 * i) with
    | .error e => .error e
    | .ok word => read_words_loop w base (acc ++ [word]) rest

/-- Subordinate::read_words (subordinate.rs lines 79-86): count consecutive
machine words starting at base, each read with one peek. -/
def read_words (w : World) (base count : Nat) : Except Err (List Nat) :=
  read_words_loop w base [] (List.range count)

/-- usize::to_ne_bytes on the x86-64 target: the eight bytes of a machine
word in little-endian (native) order. -/
def to_ne_bytes (x : Nat) : List Nat :=
  [x % 256, x / 2 ^ 8 % 256, x / 2 ^ 16 % 256, x / 2 ^ 24 % 256,
   x / 2 ^ 32 % 256, x / 2 ^ 40 % 256, x / 2 ^ 48 % 256, x / 2 ^ 56 % 256]

/-- The inner byte loop of Subordinate::read_bytes: pushes the bytes of one
word, breaking out as soon as the accumulated length equals sz (the break
fires only on exact equality, checked after each push, exactly as in the
source). -/
def pushBytes (acc : List Nat) (sz : Nat) : List Nat → List Nat
  | [] => acc
  | b :: rest =>
    let acc' := acc ++ [b]
    if acc'.length = sz then acc' else pushBytes acc' sz rest

/-- The outer word loop of Subordinate::read_bytes over the remaining word
indices. -/
def read_bytes_loop (w : World) (base sz : Nat) (acc : List Nat) :
    List Nat → Except Err (List Nat)
  | [] => .ok acc
  | i :: rest =>
    match peek w (base + 8 * i) with
    | .error e => .error e
    | .ok word => read_bytes_loop w base sz (pushBytes acc sz (to_ne_bytes word)) rest

/-- Subordinate::read_bytes (subordinate.rs lines 65-77): iterates i over
0 .. size / wordlen + 1 (inclusive of the extra word, as in the source),
peeking a word per iteration and pushing its native-order bytes through the
breaking inner loop. -/
def read_bytes (w : World) (base sz : Nat) : Except Err (List Nat) :=
  read_bytes_loop w base sz [] (List.range (sz / 8 + 1))

/-- Subordinate::fetch_state (subordinate.rs lines 122-130): stores the
wait status observed by wait() (passed here as the ws argument); when the
child is Stopped refreshes the cached registers via getregs, refreshes the
cached stack as read_words(rsp, 16) and runs handle_breakpoint; on any
other status leaves registers and stack untouched. -/
def fetch_state (s : Subordinate) (w : World) (ws : WaitStatus) :
    Except Err Unit × Subordinate × World :=
  let s0 : Subordinate := { s with wait_status := ws }
  match ws with
  | .Stopped _ _ =>
    match getregs w with
    | .error e => (.error e, s0, w)
    | .ok regs =>
      let s1 : Subordinate := { s0 with registers := regs }
      match read_words w s1.registers.rsp 16 with
      | .error e => (.error e, s1, w)
      | .ok stack => handle_breakpoint { s1 with stack := stack } w
  | _ => (.ok (), s0, w)

/-- Subordinate::step - singlestep then fetch_state; the child's execution
of one instruction is the environment change from the caller's world to
the world passed here, and ws is the status the following wait observes. -/
def step (s : Subordinate) (w : World) (ws : WaitStatus) :
    Except Err Unit × Subordinate × World :=
  fetch_state s w ws

/-- Subordinate::cont - cont then fetch_state, modelled like step. -/
def cont (s : Subordinate) (w : World) (ws : WaitStatus) :
    Except Err Unit × Subordinate × World :=
  fetch_state s w ws

/-- The bytes of the first j words peeked from base, concatenated in
native order: the reference value for read_bytes. -/
def wordsBytes (w : World) (base j : Nat) : List Nat :=
  ((List.range j).map (fun i => to_ne_bytes (w.mem (base + 8 * i)))).flatten

/-! Concrete fixtures used by the witness theorems. -/

/-- A concrete register file with the program counter one past address 64. -/
def testRegisters : Registers :=
  { rip := 65, rsp := 256, rbp := 0, rax := 0, rbx := 0, rcx := 0, rdx := 0,
    rdi := 0, rsi := 0 }

/-- A concrete world: every address readable and writable, every word 7. -/
def testWorld : World :=
  { mem := fun _ => 7, readable := fun _ => true, writable := fun _ => true,
    regs := testRegisters, getregsOk := true, setregsOk := true,
    faultErrno := 14, history := [] }

/-- The same world with every address unreadable and unwritable. -/
def faultWorld : World :=
  { testWorld with readable := fun _ => false, writable := fun _ => false }

/-- The same world with readable memory whose pokes all fail. -/
def roWorld : World :=
  { testWorld with writable := fun _ => false }

/-- A freshly spawned subordinate with no breakpoints installed. -/
def testSub : Subordinate :=
  { pid := 1, registers := Registers.default, stack := [],
    wait_status := .Unknwon 0 0, breakpoints := fun _ => none,
    debug_info := { symbols := [] } }

/-! Helper lemmas. -/

/-- The read_words loop succeeds and returns the words of memory at the
listed indices when every listed address is readable. -/
theorem read_words_loop_ok (w : World) (base : Nat) (l : List Nat) :
    ∀ acc : List Nat, (∀ i ∈ l, w.readable (base + 8 * i) = true) →
      read_words_loop w base acc l = .ok (acc ++ l.map (fun i => w.mem (base + 8 * i))) := by
  induction l with
  | nil => intro acc _; simp [read_words_loop]
  | cons i rest ih =>
    intro acc h
    have hi : w.readable (base + 8 * i) = true := h i (List.mem_cons_self i rest)
    rw [read_words_loop, peek, if_pos hi]
    show read_words_loop w base (acc ++ [w.mem (base + 8 * i)]) rest =
      Except.ok (acc ++ List.map (fun i => w.mem (base + 8 * i)) (i :: rest))
    rw [ih (acc ++ [w.mem (base + 8 * i)]) (fun j hj => h j (List.mem_cons_of_mem _ hj))]
    simp

/-- read_words succeeds and returns the count words starting at base when
the whole window is readable. -/
theorem read_words_ok (w : World) (base count : Nat)
    (h : ∀ i, i < count → w.readable (base + 8 * i) = true) :
    read_words w base count = .ok ((List.range count).map (fun i => w.mem (base + 8 * i))) := by
  have h' : ∀ i ∈ List.range count, w.readable (base + 8 * i) = true := by
    intro i hi; exact h i (List.mem_range.mp hi)
  rw [read_words, read_words_loop_ok w base (List.range count) [] h']
  simp

/-- The wrapping u64 decrement of a successor below 2 ^ 64 is exact. -/
theorem u64_wrapping_sub_one_succ (a : Nat) (h : a + 1 < 2 ^ 64) :
    u64_wrapping_sub_one (a + 1) = a := by
  rw [u64_wrapping_sub_one]
  have hp : (2 : Nat) ^ 64 = 18446744073709551616 := by norm_num
  rw [hp] at h ⊢
  omega

/-- On a Stopped status with getregs succeeding and the stack window
readable, fetch_state refreshes the snapshot and hands over to
handle_breakpoint. -/
theorem fetch_state_stopped (s : Subordinate) (w : World) (pid signo : Int)
    (hg : w.getregsOk = true)
    (hr : ∀ i, i < 16 → w.readable (w.regs.rsp + 8 * i) = true) :
    fetch_state s w (.Stopped pid signo) =
      handle_breakpoint
        { s with
          wait_status := .Stopped pid signo,
          registers := w.regs,
          stack := (List.range 16).map (fun i => w.mem (w.regs.rsp + 8 * i)) } w := by
  rw [fetch_state]
  simp only
  rw [getregs, if_pos hg]
  simp only
  rw [read_words_ok w w.regs.rsp 16 hr]

/-- handle_breakpoint on a state whose rewound program counter is an
installed breakpoint: the entry is removed, the cached rip rewound, the
saved word poked back, and the registers pushed into the child. -/
theorem handle_breakpoint_hit (s : Subordinate) (w : World) (a data : Nat)
    (haddr : u64_wrapping_sub_one s.registers.rip = a)
    (hfind : s.breakpoints a = some data)
    (hw : w.writable a = true) (hsr : w.setregsOk = true) :
    handle_breakpoint s w =
      (.ok (),
       { s with
         breakpoints := mapErase s.breakpoints a,
         registers := { s.registers with rip := a } },
       { w with
         mem := memUpd w.mem a data,
         history := w.history ++ [{ addr := a, pre := w.mem a, data := data }],
         regs := { s.registers with rip := a } }) := by
  rw [handle_breakpoint]
  simp only [haddr, hfind]
  rw [poke, if_pos hw]
  simp only
  rw [setregs, if_pos hsr]

/-- On any status other than Stopped, fetch_state only records the status. -/
theorem fetch_state_other (s : Subordinate) (w : World) (ws : WaitStatus)
    (hws : ws.isStopped = false) :
    fetch_state s w ws = (.ok (), { s with wait_status := ws }, w) := by
  cases ws with
  | Stopped pid signo => simp [WaitStatus.isStopped] at hws
  | Continued pid => rfl
  | Exited pid code => rfl
  | Signaled pid termsig => rfl
  | Unknwon pid raw => rfl

/-- Whenever the read_words loop returns successfully, its result is the
accumulator followed by the memory words at the listed indices. -/
theorem read_words_loop_ok_inv (w : World) (base : Nat) :
    ∀ (l acc res : List Nat), read_words_loop w base acc l = .ok res →
      res = acc ++ l.map (fun i => w.mem (base + 8 * i)) := by
  intro l
  induction l with
  | nil =>
    intro acc res h
    rw [read_words_loop] at h
    simp only [Except.ok.injEq] at h
    simp [h]
  | cons i rest ih =>
    intro acc res h
    rw [read_words_loop] at h
    by_cases hi : w.readable (base + 8 * i) = true
    · rw [peek, if_pos hi] at h
      simp only at h
      rw [ih (acc ++ [w.mem (base + 8 * i)]) res h]
      simp
    · rw [peek, if_neg hi] at h
      simp at h

/-- Whenever read_words returns successfully, its result is exactly the
count words of memory starting at base. -/
theorem read_words_ok_inv (w : World) (base count : Nat) (res : List Nat)
    (h : read_words w base count = .ok res) :
    res = (List.range count).map (fun i => w.mem (base + 8 * i)) := by
  rw [read_words] at h
  have := read_words_loop_ok_inv w base (List.range count) [] res h
  simpa using this

/-- Whenever handle_breakpoint returns successfully, the cached stack and
wait status are untouched and the registers are either untouched (no
breakpoint at the rewound program counter) or the same registers with rip
rewound by the wrapping decrement (a breakpoint hit). -/
theorem handle_breakpoint_ok_inv (s : Subordinate) (w : World)
    (s' : Subordinate) (w' : World) (h : handle_breakpoint s w = (.ok (), s', w')) :
    s'.stack = s.stack ∧ s'.wait_status = s.wait_status ∧
    (s'.registers = s.registers ∨
     s'.registers = { s.registers with rip := u64_wrapping_sub_one s.registers.rip }) := by
  rw [handle_breakpoint] at h
  simp only at h
  cases hm : s.breakpoints (u64_wrapping_sub_one s.registers.rip) with
  | none =>
    rw [hm] at h
    simp only [Prod.mk.injEq] at h
    obtain ⟨-, hs, -⟩ := h
    subst hs
    exact ⟨rfl, rfl, Or.inl rfl⟩
  | some data =>
    rw [hm] at h
    simp only at h
    by_cases hwr : w.writable (u64_wrapping_sub_one s.registers.rip) = true
    case neg => rw [poke, if_neg hwr] at h; simp at h
    rw [poke, if_pos hwr] at h
    simp only at h
    by_cases hsr : w.setregsOk = true
    case neg => rw [setregs, if_neg hsr] at h; simp at h
    rw [setregs, if_pos hsr] at h
    simp only [Prod.mk.injEq] at h
    obtain ⟨-, hs, -⟩ := h
    subst hs
    exact ⟨rfl, rfl, Or.inr rfl⟩

/-! The claims. -/

/-- C1: after a successful breakpoint(a) on a fresh address, a stop whose
program counter is one past a, consumed through fetch_state, removes a from
the breakpoint map, rewinds the cached rip to a, pushes the rewound
registers into the child via setregs, and restores the word at a in the
child's memory to the word observed just before breakpoint(a). -/
theorem claim_C1 (s0 : Subordinate) (w0 : World) (a : Nat) (rs : Registers)
    (pid signo : Int)
    (hbp : s0.breakpoints a = none)
    (hr : w0.readable a = true) (hw : w0.writable a = true)
    (hg : w0.getregsOk = true) (hsr : w0.setregsOk = true)
    (hrip : rs.rip = a + 1) (ha : a + 1 < 2 ^ 64)
    (hstack : ∀ i, i < 16 → w0.readable (rs.rsp + 8 * i) = true) :
    ∃ s1 w1 s2 w2,
      breakpoint s0 w0 a = (.ok (), s1, w1) ∧
      fetch_state s1 { w1 with regs := rs } (.Stopped pid signo) = (.ok (), s2, w2) ∧
      s2.breakpoints a = none ∧
      s2.registers.rip = a ∧
      w2.regs = s2.registers ∧
      w2.mem a = w0.mem a := by
  have h1 : breakpoint s0 w0 a =
      (.ok (),
       { s0 with breakpoints := mapInsert s0.breakpoints a (w0.mem a) },
       { w0 with
         mem := memUpd w0.mem a (trapWord (w0.mem a)),
         history := w0.history ++
           [{ addr := a, pre := w0.mem a, data := trapWord (w0.mem a) }] }) := by
    rw [breakpoint, hbp, peek, if_pos hr]
    simp only
    rw [poke, if_pos hw]
  have h2 := fetch_state_stopped
    { s0 with breakpoints := mapInsert s0.breakpoints a (w0.mem a) }
    { w0 with
      mem := memUpd w0.mem a (trapWord (w0.mem a)),
      history := w0.history ++
        [{ addr := a, pre := w0.mem a, data := trapWord (w0.mem a) }],
      regs := rs }
    pid signo hg hstack
  have h3 := handle_breakpoint_hit
    { s0 with
      breakpoints := mapInsert s0.breakpoints a (w0.mem a),
      wait_status := WaitStatus.Stopped pid signo,
      registers := rs,
      stack := (List.range 16).map
        (fun i => memUpd w0.mem a (trapWord (w0.mem a)) (rs.rsp + 8 * i)) }
    { w0 with
      mem := memUpd w0.mem a (trapWord (w0.mem a)),
      history := w0.history ++
        [{ addr := a, pre := w0.mem a, data := trapWord (w0.mem a) }],
      regs := rs }
    a (w0.mem a)
    (by show u64_wrapping_sub_one rs.rip = a
        rw [hrip]; exact u64_wrapping_sub_one_succ a ha)
    (by show mapInsert s0.breakpoints a (w0.mem a) a = some (w0.mem a)
        simp [mapInsert])
    hw hsr
  refine ⟨_, _, _, _, h1, h2.trans h3, ?_, ?_, ?_, ?_⟩
  · simp [mapErase]
  · rfl
  · rfl
  · simp [memUpd]

/-- C1 witness: a concrete breakpoint at address 64 hit by a stop whose
program counter is 65. -/
theorem claim_C1_witness :
    ∃ s1 w1 s2 w2,
      breakpoint testSub testWorld 64 = (.ok (), s1, w1) ∧
      fetch_state s1 { w1 with regs := testRegisters } (.Stopped 1 5) = (.ok (), s2, w2) ∧
      s2.breakpoints 64 = none ∧
      s2.registers.rip = 64 ∧
      w2.regs = s2.registers ∧
      w2.mem 64 = testWorld.mem 64 :=
  claim_C1 testSub testWorld 64 testRegisters 1 5 rfl rfl rfl rfl rfl rfl
    (by norm_num) (by decide)

/-- C5: breakpoint is idempotent: after a successful breakpoint(addr), a
second breakpoint(addr) returns success and leaves both the breakpoint map
and the child's memory exactly as they were after the first call, and when
the first call was a fresh installation the saved word is the pre-trap
original read by the first call. -/
theorem claim_C5 (s : Subordinate) (w : World) (addr : Nat)
    (s1 : Subordinate) (w1 : World)
    (h : breakpoint s w addr = (.ok (), s1, w1)) :
    breakpoint s1 w1 addr = (.ok (), s1, w1) ∧
    (s.breakpoints addr = none → s1.breakpoints addr = some (w.mem addr)) := by
  cases hm : s.breakpoints addr with
  | some v =>
    rw [breakpoint, hm] at h
    simp only [Prod.mk.injEq] at h
    obtain ⟨-, hs, hw⟩ := h
    subst hs; subst hw
    refine ⟨by rw [breakpoint, hm], ?_⟩
    intro hnone
    exact Option.noConfusion hnone
  | none =>
    rw [breakpoint, hm] at h
    by_cases hr : w.readable addr = true
    · by_cases hwr : w.writable addr = true
      · rw [peek, if_pos hr] at h
        simp only at h
        rw [poke, if_pos hwr] at h
        simp only [Prod.mk.injEq] at h
        obtain ⟨-, hs, hw⟩ := h
        subst hs; subst hw
        constructor
        · rw [breakpoint]
          simp [mapInsert]
        · intro _
          simp [mapInsert]
      · rw [peek, if_pos hr] at h
        simp only at h
        rw [poke, if_neg hwr] at h
        simp only [Prod.mk.injEq] at h
        exact absurd h.1 (by simp)
    · rw [peek, if_neg hr] at h
      simp only [Prod.mk.injEq] at h
      exact absurd h.1 (by simp)

/-- C5 witness: a concrete successful installation at address 64 followed by
a second call with the same address. -/
theorem claim_C5_witness :
    breakpoint (breakpoint testSub testWorld 64).2.1 (breakpoint testSub testWorld 64).2.2 64 =
      (.ok (), (breakpoint testSub testWorld 64).2.1, (breakpoint testSub testWorld 64).2.2) ∧
    (testSub.breakpoints 64 = none →
      (breakpoint testSub testWorld 64).2.1.breakpoints 64 = some (testWorld.mem 64)) :=
  claim_C5 testSub testWorld 64 (breakpoint testSub testWorld 64).2.1
    (breakpoint testSub testWorld 64).2.2 rfl

/-- C7: for a not-yet-installed address, breakpoint adds a map entry only
when both the peek of the original word and the poke of the trap word
succeed; when either fails the error surfaces and the state (in particular
the breakpoint map) and the child's memory are unchanged. -/
theorem claim_C7 (s : Subordinate) (w : World) (addr : Nat)
    (h : s.breakpoints addr = none) :
    (w.readable addr = false ∨ w.writable addr = false →
       breakpoint s w addr = (.error (.errno w.faultErrno), s, w)) ∧
    (∀ s' w', breakpoint s w addr = (.ok (), s', w') →
       w.readable addr = true ∧ w.writable addr = true ∧
       s'.breakpoints addr = some (w.mem addr)) := by
  constructor
  · intro hfail
    rw [breakpoint, h]
    cases hfail with
    | inl hr => rw [peek, if_neg (by simp [hr])]
    | inr hw =>
      by_cases hr : w.readable addr = true
      · rw [peek, if_pos hr]
        simp only
        rw [poke, if_neg (by simp [hw])]
      · rw [peek, if_neg hr]
  · intro s' w' hok
    rw [breakpoint, h] at hok
    by_cases hr : w.readable addr = true
    · by_cases hw : w.writable addr = true
      · rw [peek, if_pos hr] at hok
        simp only at hok
        rw [poke, if_pos hw] at hok
        simp only [Prod.mk.injEq] at hok
        obtain ⟨-, hs, -⟩ := hok
        subst hs
        exact ⟨hr, hw, by simp [mapInsert]⟩
      · rw [peek, if_pos hr] at hok
        simp only at hok
        rw [poke, if_neg hw] at hok
        simp only [Prod.mk.injEq] at hok
        exact absurd hok.1 (by simp)
    · rw [peek, if_neg hr] at hok
      simp only [Prod.mk.injEq] at hok
      exact absurd hok.1 (by simp)

/-- C7 witness: at a world where address 64 is unreadable, breakpoint
surfaces the errno and leaves the subordinate and world untouched. -/
theorem claim_C7_witness :
    breakpoint testSub faultWorld 64 =
      (.error (.errno faultWorld.faultErrno), testSub, faultWorld) :=
  (claim_C7 testSub faultWorld 64 rfl).1 (Or.inl rfl)

/-- C6: fetch_state refreshes the cached registers (from getregs) and the
cached stack (exactly the 16 words at rsp, rsp + 8, ..., rsp + 120) exactly
when the observed status is Stopped - on every successful Stopped fetch,
including a breakpoint-hit stop, the new stack is the 16-word window at the
refreshed rsp and the new registers are the getregs snapshot, with rip
additionally rewound by the wrapping decrement when a breakpoint fired; on
any other status it records the status and leaves the previously cached
registers and stack (and the child) entirely unchanged. -/
theorem claim_C6 :
    (∀ (s : Subordinate) (w : World) (ws : WaitStatus), ws.isStopped = false →
       fetch_state s w ws = (.ok (), { s with wait_status := ws }, w)) ∧
    (∀ (s : Subordinate) (w : World) (pid signo : Int) (s' : Subordinate) (w' : World),
       fetch_state s w (.Stopped pid signo) = (.ok (), s', w') →
       s'.stack = (List.range 16).map (fun i => w.mem (w.regs.rsp + 8 * i)) ∧
       s'.stack.length = 16 ∧
       s'.wait_status = .Stopped pid signo ∧
       (s'.registers = w.regs ∨
        s'.registers = { w.regs with rip := u64_wrapping_sub_one w.regs.rip })) := by
  constructor
  · exact fun s w ws hws => fetch_state_other s w ws hws
  · intro s w pid signo s' w' h
    rw [fetch_state] at h
    simp only at h
    by_cases hg : w.getregsOk = true
    case neg => rw [getregs, if_neg hg] at h; simp at h
    rw [getregs, if_pos hg] at h
    simp only at h
    cases hrw : read_words w w.regs.rsp 16 with
    | error e => rw [hrw] at h; simp at h
    | ok stack =>
      rw [hrw] at h
      simp only at h
      have hstack : stack = (List.range 16).map (fun i => w.mem (w.regs.rsp + 8 * i)) :=
        read_words_ok_inv w w.regs.rsp 16 stack hrw
      obtain ⟨h1, h2, h3⟩ := handle_breakpoint_ok_inv _ _ _ _ h
      refine ⟨?_, ?_, ?_, ?_⟩
      · rw [h1]; exact hstack
      · rw [h1, hstack]; simp
      · exact h2
      · exact h3

/-- C6 witness: a terminal status leaves the snapshot unchanged; a
successful Stopped fetch refreshes the stack to the 16-word window and the
registers to the getregs snapshot (possibly rip-rewound). -/
theorem claim_C6_witness :
    fetch_state testSub testWorld (.Exited 1 0) =
      (.ok (), { testSub with wait_status := .Exited 1 0 }, testWorld) ∧
    ((fetch_state testSub testWorld (.Stopped 1 5)).2.1.stack =
       (List.range 16).map (fun i => testWorld.mem (testWorld.regs.rsp + 8 * i)) ∧
     (fetch_state testSub testWorld (.Stopped 1 5)).2.1.stack.length = 16 ∧
     (fetch_state testSub testWorld (.Stopped 1 5)).2.1.wait_status = .Stopped 1 5 ∧
     ((fetch_state testSub testWorld (.Stopped 1 5)).2.1.registers = testWorld.regs ∨
      (fetch_state testSub testWorld (.Stopped 1 5)).2.1.registers =
        { testWorld.regs with rip := u64_wrapping_sub_one testWorld.regs.rip })) :=
  ⟨claim_C6.1 testSub testWorld (.Exited 1 0) rfl,
   claim_C6.2 testSub testWorld 1 5
     (fetch_state testSub testWorld (.Stopped 1 5)).2.1
     (fetch_state testSub testWorld (.Stopped 1 5)).2.2 rfl⟩

/-- C10: on every Stopped status fetch_state hands control to
handle_breakpoint, which always consults the breakpoint map at the wrapping
u64 value rip - 1; that value equals the mathematical rip - 1 exactly when
the stopped program counter is at least 1, and a stop observed with program
counter 0 underflows to 2 ^ 64 - 1. -/
theorem claim_C10 :
    (∀ (s : Subordinate) (w : World),
       s.breakpoints (u64_wrapping_sub_one s.registers.rip) = none →
       handle_breakpoint s w = (.ok (), s, w)) ∧
    (∀ rip : Nat, 1 ≤ rip → rip < 2 ^ 64 → u64_wrapping_sub_one rip = rip - 1) ∧
    u64_wrapping_sub_one 0 = 2 ^ 64 - 1 ∧
    (∀ (s : Subordinate) (w : World) (pid signo : Int), w.getregsOk = true →
       (∀ i, i < 16 → w.readable (w.regs.rsp + 8 * i) = true) →
       fetch_state s w (.Stopped pid signo) =
         handle_breakpoint
           { s with
             wait_status := .Stopped pid signo,
             registers := w.regs,
             stack := (List.range 16).map (fun i => w.mem (w.regs.rsp + 8 * i)) } w) := by
  refine ⟨?_, ?_, ?_, ?_⟩
  · intro s w h
    rw [handle_breakpoint]
    simp only [h]
  · intro rip h1 h2
    rw [u64_wrapping_sub_one]
    have hp : (2 : Nat) ^ 64 = 18446744073709551616 := by norm_num
    rw [hp] at h2 ⊢
    omega
  · rfl
  · intro s w pid signo hg hr
    rw [fetch_state]
    simp only
    rw [getregs, if_pos hg]
    simp only
    rw [read_words_ok w w.regs.rsp 16 hr]

/-- C10 witness: concrete instances of all four conjuncts. -/
theorem claim_C10_witness :
    handle_breakpoint testSub testWorld = (.ok (), testSub, testWorld) ∧
    u64_wrapping_sub_one 5 = 4 ∧
    fetch_state testSub testWorld (.Stopped 2 5) =
      handle_breakpoint
        { testSub with
          wait_status := .Stopped 2 5,
          registers := testWorld.regs,
          stack := (List.range 16).map
            (fun i => testWorld.mem (testWorld.regs.rsp + 8 * i)) } testWorld :=
  ⟨claim_C10.1 testSub testWorld rfl,
   claim_C10.2.1 5 (by norm_num) (by norm_num),
   claim_C10.2.2.2 testSub testWorld 2 5 rfl (by decide)⟩

/-- to_ne_bytes always yields eight bytes. -/
theorem to_ne_bytes_length (x : Nat) : (to_ne_bytes x).length = 8 := rfl

/-- When even pushing all remaining bytes stays strictly below sz, the
inner byte loop pushes them all (the break never fires). -/
theorem pushBytes_all (sz : Nat) :
    ∀ (bs acc : List Nat), acc.length + bs.length < sz →
      pushBytes acc sz bs = acc ++ bs := by
  intro bs
  induction bs with
  | nil => intro acc _; simp [pushBytes]
  | cons b rest ih =>
    intro acc h
    simp only [pushBytes]
    rw [if_neg (by simp at h ⊢; omega)]
    rw [ih (acc ++ [b]) (by simp at h ⊢; omega)]
    simp

/-- When sz lies within reach of the remaining bytes, the inner byte loop
stops exactly at sz: it pushes sz - acc.length further bytes. -/
theorem pushBytes_reach (sz : Nat) :
    ∀ (bs acc : List Nat), acc.length < sz → sz ≤ acc.length + bs.length →
      pushBytes acc sz bs = acc ++ bs.take (sz - acc.length) := by
  intro bs
  induction bs with
  | nil => intro acc h1 h2; simp at h2; omega
  | cons b rest ih =>
    intro acc h1 h2
    simp only [pushBytes]
    by_cases he : (acc ++ [b]).length = sz
    · rw [if_pos he]
      have h3 : sz - acc.length = 1 := by simp at he; omega
      rw [h3]
      simp
    · rw [if_neg he]
      have h1' : (acc ++ [b]).length < sz := by simp at he ⊢; omega
      have h2' : sz ≤ (acc ++ [b]).length + rest.length := by simp at h2 ⊢; omega
      rw [ih (acc ++ [b]) h1' h2']
      have h4 : sz - acc.length = (sz - (acc.length + 1)) + 1 := by omega
      rw [h4, List.take_succ_cons]
      simp

/-- Splitting off the last word of the reference byte string. -/
theorem wordsBytes_succ (w : World) (base j : Nat) :
    wordsBytes w base (j + 1) =
      wordsBytes w base j ++ to_ne_bytes (w.mem (base + 8 * j)) := by
  rw [wordsBytes, wordsBytes, List.range_succ]
  simp

/-- The reference byte string of j words has 8 * j bytes. -/
theorem wordsBytes_length (w : World) (base : Nat) :
    ∀ j, (wordsBytes w base j).length = 8 * j := by
  intro j
  induction j with
  | zero => rfl
  | succ n ih =>
    rw [wordsBytes_succ, List.length_append, ih, to_ne_bytes_length]
    omega

/-- The word loop of read_bytes, started after j words with the truncated
accumulator, runs the remaining indices and produces the first sz bytes of
the full concatenation, provided sz is not a multiple of the word size and
all the words are readable. -/
theorem read_bytes_loop_spec (w : World) (base sz : Nat) (hsz : sz % 8 ≠ 0)
    (hread : ∀ i, i < sz / 8 + 1 → w.readable (base + 8 * i) = true) :
    ∀ c j, j + c = sz / 8 + 1 →
      read_bytes_loop w base sz ((wordsBytes w base j).take sz) (List.range' j c) =
        .ok ((wordsBytes w base (sz / 8 + 1)).take sz) := by
  intro c
  induction c with
  | zero =>
    intro j hj
    have hj' : j = sz / 8 + 1 := by omega
    subst hj'
    rfl
  | succ n ih =>
    intro j hj
    have hjlt : j < sz / 8 + 1 := by omega
    have hjle : j ≤ sz / 8 := by omega
    have hdm : 8 * (sz / 8) < sz := by
      have h8 : sz % 8 < 8 := Nat.mod_lt _ (by norm_num)
      omega
    have hacc : (wordsBytes w base j).take sz = wordsBytes w base j := by
      apply List.take_of_length_le
      rw [wordsBytes_length]
      omega
    rw [List.range'_succ]
    rw [read_bytes_loop, peek, if_pos (hread j hjlt)]
    show read_bytes_loop w base sz
        (pushBytes ((wordsBytes w base j).take sz) sz (to_ne_bytes (w.mem (base + 8 * j))))
        (List.range' (j + 1) n) = _
    have hpb : pushBytes ((wordsBytes w base j).take sz) sz
        (to_ne_bytes (w.mem (base + 8 * j))) = (wordsBytes w base (j + 1)).take sz := by
      rw [hacc]
      rcases Nat.lt_or_ge j (sz / 8) with hlt | hge
      · rw [pushBytes_all sz _ _ (by rw [wordsBytes_length, to_ne_bytes_length]; omega)]
        rw [← wordsBytes_succ]
        rw [List.take_of_length_le (by rw [wordsBytes_length]; omega)]
      · have hje : j = sz / 8 := by omega
        rw [pushBytes_reach sz _ _ (by rw [wordsBytes_length]; omega)
            (by rw [wordsBytes_length, to_ne_bytes_length]; omega)]
        rw [wordsBytes_succ, List.take_append_eq_append_take, hacc, wordsBytes_length]
    rw [hpb]
    exact ih (j + 1) (by omega)

/-- C8: for a size that is not a multiple of the word size, read_bytes
returns exactly size bytes: the peeked words' bytes appended in native
order, with the final word's trailing bytes truncated. -/
theorem claim_C8 (w : World) (base sz : Nat) (hsz : sz % 8 ≠ 0)
    (hread : ∀ i, i < sz / 8 + 1 → w.readable (base + 8 * i) = true) :
    read_bytes w base sz = .ok ((wordsBytes w base (sz / 8 + 1)).take sz) ∧
    ((wordsBytes w base (sz / 8 + 1)).take sz).length = sz := by
  constructor
  · rw [read_bytes, List.range_eq_range']
    have h := read_bytes_loop_spec w base sz hsz hread (sz / 8 + 1) 0 (by omega)
    rw [show wordsBytes w base 0 = [] from rfl, List.take_nil] at h
    exact h
  · rw [List.length_take, wordsBytes_length]
    have h8 : sz % 8 < 8 := Nat.mod_lt _ (by norm_num)
    omega

/-- C8 witness: reading three bytes (not a multiple of eight) from the
concrete world returns exactly three bytes. -/
theorem claim_C8_witness :
    read_bytes testWorld 0 3 = .ok ((wordsBytes testWorld 0 (3 / 8 + 1)).take 3) ∧
    ((wordsBytes testWorld 0 (3 / 8 + 1)).take 3).length = 3 :=
  claim_C8 testWorld 0 3 (by decide) (by decide)

/-- C2 is violated by the code: read_bytes(0, 0) returns the eight bytes
of one whole word, not an empty byte sequence.  The loop runs for
size / wordlen + 1 = 1 iterations even when size is 0, and the inner break
tests bytes.len() == size only after pushing, an equality that never holds
once the length exceeds size, so every size that is a multiple of the word
size returns size + 8 bytes. -/
theorem claim_C2 : read_bytes testWorld 0 0 = .ok [7, 0, 0, 0, 0, 0, 0, 0] := by
  rfl

/-! The breakpoint bookkeeping invariant (C4). -/

/-- Every address currently in the breakpoint map was installed by a poke
of the trap word recorded in the controller's poke history, and the word
saved under the address is the word that was in the child's memory just
before that poke. -/
def BreakpointInv (s : Subordinate) (w : World) : Prop :=
  ∀ a orig, s.breakpoints a = some orig →
    ∃ ev ∈ w.history, ev.addr = a ∧ ev.pre = orig ∧ ev.data = trapWord orig

/-- One successful controller operation on the subordinate, or one run of
the child between a singlestep/cont request and the following wait (the
child may change its own memory and registers, but the controller's poke
history and the fault model are untouched). -/
inductive OpStep : Subordinate × World → Subordinate × World → Prop
  | bp (s : Subordinate) (w : World) (addr : Nat) (s' : Subordinate) (w' : World) :
      breakpoint s w addr = (.ok (), s', w') → OpStep (s, w) (s', w')
  | pk (s : Subordinate) (w : World) (addr data : Nat) (w' : World) :
      poke w addr data = .ok w' → OpStep (s, w) (s, w')
  | fetch (s : Subordinate) (w : World) (ws : WaitStatus) (s' : Subordinate) (w' : World) :
      fetch_state s w ws = (.ok (), s', w') → OpStep (s, w) (s', w')
  | run (s : Subordinate) (w : World) (mem' : Nat → Nat) (regs' : Registers) :
      OpStep (s, w) (s, { w with mem := mem', regs := regs' })

/-- The invariant transfers along any step that only shrinks the breakpoint
map and only appends to the poke history. -/
theorem breakpointInv_mono (s s' : Subordinate) (w w' : World)
    (hsub : ∀ a orig, s'.breakpoints a = some orig → s.breakpoints a = some orig)
    (hh : ∀ ev, ev ∈ w.history → ev ∈ w'.history)
    (hinv : BreakpointInv s w) : BreakpointInv s' w' := by
  intro a orig hm
  obtain ⟨ev, hev, hprops⟩ := hinv a orig (hsub a orig hm)
  exact ⟨ev, hh ev hev, hprops⟩

/-- A successful breakpoint call preserves the invariant: a fresh
installation records exactly the matching poke event. -/
theorem breakpoint_preserves (s : Subordinate) (w : World) (addr : Nat)
    (s' : Subordinate) (w' : World) (h : breakpoint s w addr = (.ok (), s', w'))
    (hinv : BreakpointInv s w) : BreakpointInv s' w' := by
  cases hm : s.breakpoints addr with
  | some v =>
    rw [breakpoint, hm] at h
    simp only [Prod.mk.injEq] at h
    obtain ⟨-, hs, hw⟩ := h
    subst hs; subst hw
    exact hinv
  | none =>
    rw [breakpoint, hm] at h
    by_cases hr : w.readable addr = true
    case neg => rw [peek, if_neg hr] at h; simp at h
    rw [peek, if_pos hr] at h
    simp only at h
    by_cases hwr : w.writable addr = true
    case neg => rw [poke, if_neg hwr] at h; simp at h
    rw [poke, if_pos hwr] at h
    simp only [Prod.mk.injEq] at h
    obtain ⟨-, hs, hw⟩ := h
    subst hs; subst hw
    intro a orig hma
    by_cases ha : a = addr
    · subst ha
      simp only [mapInsert, eq_self_iff_true, if_true, Option.some.injEq] at hma
      refine ⟨{ addr := a, pre := w.mem a, data := trapWord (w.mem a) },
        by simp, rfl, hma, by rw [hma]⟩
    · simp only [mapInsert, if_neg ha] at hma
      obtain ⟨ev, hev, hp⟩ := hinv a orig hma
      exact ⟨ev, by simp [hev], hp⟩

/-- A successful handle_breakpoint preserves the invariant: it only removes
an entry and appends a restoring poke event. -/
theorem handle_breakpoint_preserves (s : Subordinate) (w : World)
    (s' : Subordinate) (w' : World) (h : handle_breakpoint s w = (.ok (), s', w'))
    (hinv : BreakpointInv s w) : BreakpointInv s' w' := by
  rw [handle_breakpoint] at h
  simp only at h
  cases hm : s.breakpoints (u64_wrapping_sub_one s.registers.rip) with
  | none =>
    rw [hm] at h
    simp only [Prod.mk.injEq] at h
    obtain ⟨-, hs, hw⟩ := h
    subst hs; subst hw
    exact hinv
  | some data =>
    rw [hm] at h
    simp only at h
    by_cases hwr : w.writable (u64_wrapping_sub_one s.registers.rip) = true
    case neg => rw [poke, if_neg hwr] at h; simp at h
    rw [poke, if_pos hwr] at h
    simp only at h
    by_cases hsr : w.setregsOk = true
    case neg => rw [setregs, if_neg hsr] at h; simp at h
    rw [setregs, if_pos hsr] at h
    simp only [Prod.mk.injEq] at h
    obtain ⟨-, hs, hw⟩ := h
    subst hs; subst hw
    refine breakpointInv_mono s _ w _ ?_ ?_ hinv
    · intro a orig hma
      by_cases ha : a = u64_wrapping_sub_one s.registers.rip
      · simp only [mapErase, if_pos ha] at hma
        exact Option.noConfusion hma
      · simp only [mapErase, if_neg ha] at hma
        exact hma
    · intro ev hev
      simp [hev]

/-- A successful fetch_state preserves the invariant. -/
theorem fetch_state_preserves (s : Subordinate) (w : World) (ws : WaitStatus)
    (s' : Subordinate) (w' : World) (h : fetch_state s w ws = (.ok (), s', w'))
    (hinv : BreakpointInv s w) : BreakpointInv s' w' := by
  cases ws with
  | Stopped pid signo =>
    rw [fetch_state] at h
    simp only at h
    by_cases hg : w.getregsOk = true
    case neg => rw [getregs, if_neg hg] at h; simp at h
    rw [getregs, if_pos hg] at h
    simp only at h
    cases hrw : read_words w w.regs.rsp 16 with
    | error e => rw [hrw] at h; simp at h
    | ok stack =>
      rw [hrw] at h
      simp only at h
      exact handle_breakpoint_preserves _ _ _ _ h hinv
  | Continued pid =>
    rw [fetch_state_other s w (WaitStatus.Continued pid) rfl] at h
    simp only [Prod.mk.injEq] at h
    obtain ⟨-, hs, hw⟩ := h
    subst hs; subst hw
    exact hinv
  | Exited pid code =>
    rw [fetch_state_other s w (WaitStatus.Exited pid code) rfl] at h
    simp only [Prod.mk.injEq] at h
    obtain ⟨-, hs, hw⟩ := h
    subst hs; subst hw
    exact hinv
  | Signaled pid termsig =>
    rw [fetch_state_other s w (WaitStatus.Signaled pid termsig) rfl] at h
    simp only [Prod.mk.injEq] at h
    obtain ⟨-, hs, hw⟩ := h
    subst hs; subst hw
    exact hinv
  | Unknwon pid raw =>
    rw [fetch_state_other s w (WaitStatus.Unknwon pid raw) rfl] at h
    simp only [Prod.mk.injEq] at h
    obtain ⟨-, hs, hw⟩ := h
    subst hs; subst hw
    exact hinv

/-- Every single step preserves the invariant. -/
theorem opStep_preserves (c c' : Subordinate × World) (h : OpStep c c')
    (hinv : BreakpointInv c.1 c.2) : BreakpointInv c'.1 c'.2 := by
  cases h with
  | bp s w addr s' w' heq => exact breakpoint_preserves s w addr s' w' heq hinv
  | pk s w addr data w' heq =>
    rw [poke] at heq
    by_cases hwr : w.writable addr = true
    case neg => rw [if_neg hwr] at heq; simp at heq
    rw [if_pos hwr] at heq
    simp only [Except.ok.injEq] at heq
    subst heq
    exact breakpointInv_mono s s w _ (fun a orig hm => hm) (fun ev hev => by simp [hev]) hinv
  | fetch s w ws s' w' heq => exact fetch_state_preserves s w ws s' w' heq hinv
  | run s w mem' regs' =>
    exact breakpointInv_mono s s w _ (fun a orig hm => hm) (fun ev hev => hev) hinv

/-- C4: along any sequence of successful controller operations (and child
runs), every address currently in the breakpoint map is one at which
breakpoint poked the trap word (w & ~0xFF) | 0xCC, and the saved value is
the original word read just before that poke. -/
theorem claim_C4 (c c' : Subordinate × World)
    (h : Relation.ReflTransGen OpStep c c') (hinv : BreakpointInv c.1 c.2) :
    BreakpointInv c'.1 c'.2 := by
  induction h with
  | refl => exact hinv
  | tail _ hlast ih => exact opStep_preserves _ _ hlast ih

/-- C4 witness: starting from the fresh subordinate (which satisfies the
invariant vacuously) and installing one concrete breakpoint. -/
theorem claim_C4_witness :
    BreakpointInv (breakpoint testSub testWorld 64).2.1 (breakpoint testSub testWorld 64).2.2 :=
  claim_C4 (testSub, testWorld)
    ((breakpoint testSub testWorld 64).2.1, (breakpoint testSub testWorld 64).2.2)
    (Relation.ReflTransGen.single (OpStep.bp testSub testWorld 64 _ _ rfl))
    (fun _ _ h => Option.noConfusion h)

/-! Spawn: fork, execvp and the parent-side construction (C3, C9). -/

/-- The child-side result of a successful execvp: the image is replaced
and the call never returns. -/
inductive ExecResult where
  | replaced
deriving DecidableEq

/-- The spawn-time oracle: outcome of fork, PATH resolution and errno for
execvp, the parent-side File::open and debug-info parse, and the child
state backing the initial fetch_state. -/
structure SpawnEnv where
  forkOk : Bool
  forkErrno : Int
  childPid : Int
  pathResolvable : String → Bool
  execErrno : Int
  openable : String → Bool
  debugInfoOf : String → Except Err DebugInfo
  initialWait : WaitStatus
  world : World

/-- execvp of src/sys/mod.rs lines 45-62: an empty argument vector is
rejected with the domain error before any OS call; otherwise the image is
replaced when PATH lookup on argv[0] succeeds, and the errno surfaces when
it fails. -/
def execvp (env : SpawnEnv) (cmd : List String) : Except Err ExecResult :=
  if cmd.isEmpty then .error (.domainErr "command cannot be empty")
  else if env.pathResolvable (cmd.headD "") then .ok .replaced
  else .error (.errno env.execErrno)

/-- What the parent process obtains from spawn: the constructed
subordinate, a surfaced error, or a panic. -/
inductive ParentOutcome where
  | ok (s : Subordinate) (w : World)
  | err (e : Err)
  | panicked (msg : String)

/-- What the forked child ends up doing: its image replaced by execvp, or
spawn returning an error in the child. -/
inductive ChildOutcome where
  | replaced
  | err (e : Err)

/-- The joint observable outcome of a spawn call, including whether a fork
happened at all. -/
structure SpawnResult where
  forked : Bool
  parent : ParentOutcome
  child : Option ChildOutcome

/-- Subordinate::spawn (subordinate.rs lines 18-43).  fork runs first; in
the child, traceme is followed by execvp, whose error, if any, becomes the
child's return value of spawn; in the parent, File::open(&cmd[0]) indexes
cmd before any emptiness check (an index panic on an empty vector), the
debug info is parsed, the Subordinate is constructed with the Unknwon
status and empty breakpoints, and one fetch_state consumes the initial
stop.  The forked flag records whether the fork happened. -/
def spawn (env : SpawnEnv) (cmd : List String) : SpawnResult :=
  if env.forkOk = false then
    { forked := false, parent := .err (.errno env.forkErrno), child := none }
  else
    let child : ChildOutcome :=
      match execvp env cmd with
      | .ok .replaced => .replaced
      | .error e => .err e
    let parent : ParentOutcome :=
      match cmd.head? with
      | none => .panicked "index out of bounds"
      | some path =>
        if env.openable path then
          match env.debugInfoOf path with
          | .error e => .err e
          | .ok di =>
            match fetch_state
                { pid := env.childPid, wait_status := .Unknwon 0 0,
                  registers := Registers.default, stack := [],
                  breakpoints := fun _ => none, debug_info := di }
                env.world env.initialWait with
            | (.ok _, s1, w1) => .ok s1 w1
            | (.error e, _, _) => .err e
        else .err (.ioError path)
    { forked := true, parent := parent, child := some child }

/-- A concrete spawn environment where everything succeeds. -/
def testSpawnEnv : SpawnEnv :=
  { forkOk := true, forkErrno := 11, childPid := 1234,
    pathResolvable := fun _ => true, execErrno := 2,
    openable := fun _ => true, debugInfoOf := fun _ => .ok { symbols := [] },
    initialWait := .Stopped 1234 5, world := testWorld }

/-- The same environment with every File::open failing. -/
def noOpenEnv : SpawnEnv :=
  { testSpawnEnv with openable := fun _ => false }

/-- C3 counterexample: calling spawn with an empty argument vector at a
concrete environment whose fork succeeds does fork (the fork is
observable), and the parent does not fail with a domain error - it panics
indexing argv[0].  This refutes the claim that spawn with empty argv fails
with a domain error with no observable fork. -/
theorem claim_C3_counterexample :
    (spawn testSpawnEnv []).forked = true ∧
    (spawn testSpawnEnv []).parent = .panicked "index out of bounds" :=
  ⟨rfl, rfl⟩

/-- C3 amended: execvp itself rejects an empty argument vector with the
domain error before attempting any exec; spawn, however, forks before any
argv validation, so with an empty vector a fork is observable: the child's
execvp returns the domain error while the parent panics indexing argv[0]. -/
theorem claim_C3 (env : SpawnEnv) (hfork : env.forkOk = true) :
    execvp env [] = .error (.domainErr "command cannot be empty") ∧
    (spawn env []).forked = true ∧
    (spawn env []).parent = .panicked "index out of bounds" ∧
    (spawn env []).child = some (.err (.domainErr "command cannot be empty")) := by
  have hspawn : spawn env [] =
      { forked := true,
        parent := .panicked "index out of bounds",
        child := some (.err (.domainErr "command cannot be empty")) } := by
    rw [spawn, if_neg (by simp [hfork])]
    rfl
  exact ⟨rfl, by rw [hspawn], by rw [hspawn], by rw [hspawn]⟩

/-- C3 witness: the amended statement at the concrete environment. -/
theorem claim_C3_witness :
    execvp testSpawnEnv [] = .error (.domainErr "command cannot be empty") ∧
    (spawn testSpawnEnv []).forked = true ∧
    (spawn testSpawnEnv []).parent = .panicked "index out of bounds" ∧
    (spawn testSpawnEnv []).child = some (.err (.domainErr "command cannot be empty")) :=
  claim_C3 testSpawnEnv rfl

/-- C9: spawn opens the file named by argv[0] directly (File::open in the
parent) to load debug info, so when argv[0] is not openable as a
filesystem path the parent's spawn fails with the propagated I/O error,
even when PATH resolution would let the child's execvp locate and run the
command. -/
theorem claim_C9 (env : SpawnEnv) (cmd : List String) (path : String)
    (hhead : cmd.head? = some path)
    (hfork : env.forkOk = true)
    (hopen : env.openable path = false) :
    (spawn env cmd).parent = .err (.ioError path) ∧
    (env.pathResolvable path = true → execvp env cmd = .ok .replaced) := by
  constructor
  · rw [spawn, if_neg (by simp [hfork])]
    simp only
    rw [hhead]
    simp only
    rw [if_neg (by simp [hopen])]
  · intro hres
    cases cmd with
    | nil => simp at hhead
    | cons x rest =>
      obtain hx : x = path := by simpa using hhead
      subst hx
      rw [execvp, if_neg (by simp), if_pos (by simpa using hres)]

/-- C9 witness: at a concrete environment where nothing is openable but
everything is on PATH, spawn surfaces the I/O error while execvp would
have replaced the image. -/
theorem claim_C9_witness :
    (spawn noOpenEnv ["ls"]).parent = .err (.ioError "ls") ∧
    (noOpenEnv.pathResolvable "ls" = true → execvp noOpenEnv ["ls"] = .ok .replaced) :=
  claim_C9 noOpenEnv ["ls"] "ls" rfl rfl rfl

end RustDebugger
